import Mathlib

/-!
Verification of the overlap-detection and merge engine of `paper2skills`
(`src/paper2skills/evaluate/merger.py` and the auto-merge executor in
`src/paper2skills/cli.py`), as a shallow embedding in Lean 4.

Modelling conventions:
* Python dicts are insertion-ordered association lists (`List (String × β)`);
  `updateAssoc` reproduces `d[k] = v` (update in place, else append) and
  `lookupAssoc` reproduces `d.get(k)`.
* Python floats are modelled as `ℚ`; `math.sqrt` is an explicit function
  parameter of the similarity primitive since only `sqrt 0 = 0` matters to
  the claims under test.
* LLM round trips are oracle parameters: the judged pair list, the parsed
  merge response and the embedding batch are inputs, so each code path is a
  total function of its inputs.
-/

/-- Association-list lookup, the model of Python `dict.get(k)`
(first match; the dicts built below never carry duplicate keys). -/
def lookupAssoc {β : Type} : List (String × β) → String → Option β
  | [], _ => none
  | (k1, v) :: rest, k => if k1 = k then some v else lookupAssoc rest k

/-- Association-list update, the model of Python `d[k] = v`: replace in
place when the key exists, append otherwise (insertion order preserved). -/
def updateAssoc {β : Type} : List (String × β) → String → β → List (String × β)
  | [], k, v => [(k, v)]
  | (k1, v1) :: rest, k, v =>
    if k1 = k then (k, v) :: rest else (k1, v1) :: updateAssoc rest k v

/-- Model of Python `k in d`. -/
def containsKey {β : Type} (m : List (String × β)) (k : String) : Bool :=
  (lookupAssoc m k).isSome

/-- `OverlapPair` from `merger.py`: one pairwise judgment record. -/
structure OverlapPair where
  skill_a : String
  skill_b : String
  overlap_score : ℚ
  should_merge : Bool
  reason : String
  suggested_name : Option String
deriving DecidableEq

/-- `parent[x]` inside the union-find of `_build_merge_groups`; total with
default `x` (in the source every accessed key is present). -/
def parentGet (m : List (String × String)) (x : String) : String :=
  (lookupAssoc m x).getD x

/-- The `while parent[x] != x` loop of `find`, with path halving
(`parent[x] = parent[parent[x]]; x = parent[x]`).  The first list argument
is structural fuel bounding the iteration count; `findUF` passes a list one
longer than the parent map, which exceeds any chain length. -/
def findLoop : List (String × String) → List (String × String) → String →
    List (String × String) × String
  | [], m, x => (m, x)
  | _ :: fuel, m, x =>
    let px := parentGet m x
    if px = x then (m, x)
    else findLoop fuel (updateAssoc m x (parentGet m px)) (parentGet m px)

/-- `find` of `_build_merge_groups`: insert an absent name as its own root,
then chase parents (mutating the map by path halving). -/
def findUF (parent : List (String × String)) (x : String) :
    List (String × String) × String :=
  let parent1 := if containsKey parent x then parent else updateAssoc parent x x
  findLoop ((x, x) :: parent1) parent1 x

/-- `union` of `_build_merge_groups`: `parent[find(x)] = find(y)` when the
roots differ. -/
def unionUF (parent : List (String × String)) (x y : String) :
    List (String × String) :=
  let rx := findUF parent x
  let ry := findUF rx.1 y
  if rx.2 = ry.2 then ry.1 else updateAssoc ry.1 rx.2 ry.2

/-- `groups.setdefault(root, []).append(name)`: append to the root's bucket,
creating it at the end on first use (dict insertion order). -/
def addToGroup : List (String × List String) → String → String →
    List (String × List String)
  | [], root, name => [(root, [name])]
  | (r, l) :: rest, root, name =>
    if r = root then (r, l ++ [name]) :: rest
    else (r, l) :: addToGroup rest root name

/-- The group-collection loop of `_build_merge_groups`: for every key of
`parent` (in insertion order) find its root — threading the path-halved
map — and bucket the name under that root. -/
def collectGroups (parent : List (String × String)) :
    List (String × List String) :=
  ((parent.map Prod.fst).foldl
    (fun st name =>
      let fr := findUF st.1 name
      (fr.1, addToGroup st.2 fr.2 name))
    (parent, [])).2

/-- Lexicographic comparison of char lists by code point, the order Python
uses on `str`.  (Lean's own `String.ltb` is not kernel-reducible, so the
comparison is spelled out structurally.) -/
def charListLe : List Char → List Char → Bool
  | [], _ => true
  | _ :: _, [] => false
  | a :: as, b :: bs => if a = b then charListLe as bs else decide (a < b)

/-- Python `<=` on strings: lexicographic by code point. -/
def strLe (a b : String) : Bool := charListLe a.data b.data

/-- Python `sorted` on a list of names (lexicographic string order). -/
def sortNames (l : List String) : List String :=
  List.insertionSort (fun x y => strLe x y = true) l

/-- Body of `_build_merge_groups` after the `should_merge` filter: early
exit on no mergeable pair, union every pair's endpoints, then emit each
bucket of size > 1, sorted. -/
def buildGroupsOfMerge (merge_pairs : List OverlapPair) : List (List String) :=
  if merge_pairs.isEmpty then []
  else
    let parent := merge_pairs.foldl
      (fun par p => unionUF par p.skill_a p.skill_b) []
    ((collectGroups parent).filter (fun g => 1 < g.2.length)).map
      (fun g => sortNames g.2)

/-- `_build_merge_groups` from `merger.py` (lines 241-272). -/
def _build_merge_groups (pairs : List OverlapPair) : List (List String) :=
  buildGroupsOfMerge (pairs.filter (fun p => p.should_merge))

/-- The projection of a pair to its endpoint names (the only pair data the
union-find step reads). -/
def edgeOf (p : OverlapPair) : String × String := (p.skill_a, p.skill_b)

/-- The spec scenario for C1: pairs (a,b) mergeable, (a,c) judged
non-mergeable, (b,c) mergeable. -/
def pabC1 : OverlapPair := ⟨"a", "b", 9/10, true, "strong overlap", some "ab"⟩

def pacC1 : OverlapPair := ⟨"a", "c", 2/10, false, "weak", none⟩

def pbcC1 : OverlapPair := ⟨"b", "c", 85/100, true, "strong", none⟩

def psC1 : List OverlapPair := [pabC1, pacC1, pbcC1]

/-- The pair data `_build_merge_groups` may legitimately read: endpoint
names and the merge verdict (everything except score, reason and
suggested name). -/
def pairKey (p : OverlapPair) : String × String × Bool :=
  (p.skill_a, p.skill_b, p.should_merge)

def psC6a : List OverlapPair := [⟨"a", "b", 9/10, true, "r1", none⟩]

def psC6b : List OverlapPair := [⟨"a", "b", 1/10, true, "r2", some "n"⟩]

/-- A high-score pair the judge nevertheless marked non-mergeable. -/
def pHiC6 : OverlapPair := ⟨"x", "y", 99/100, false, "similar wording only", none⟩

/-- `sum(x * y for x, y in zip(a, b))` — note `zip` silently pairs up to
the shorter input, exactly as in the source. -/
def dotProduct (a b : List ℚ) : ℚ :=
  (a.zip b).foldl (fun acc xy => acc + xy.1 * xy.2) 0

/-- `sum(x * x for x in a)`. -/
def sumSquares (a : List ℚ) : ℚ :=
  a.foldl (fun acc x => acc + x * x) 0

/-- `_cosine_similarity` from `merger.py` (lines 229-238).  `math.sqrt` is
passed in as a function parameter `sqrt` (the claims only ever rely on
`sqrt 0 = 0`); floats are modelled as rationals. -/
def _cosine_similarity (sqrt : ℚ → ℚ) (a b : List ℚ) : ℚ :=
  let dot := dotProduct a b
  let norm_a := sqrt (sumSquares a)
  let norm_b := sqrt (sumSquares b)
  if norm_a = 0 ∨ norm_b = 0 then 0 else dot / (norm_a * norm_b)

/-- `GeneratedSkill` from `generator.py` (the shape `merger.py` consumes):
name, description, body, an insertion-ordered metadata dict and an
optional source paper title. -/
structure GeneratedSkill where
  name : String
  description : String
  body : String
  metadata : List (String × String)
  source_paper : Option String
deriving DecidableEq

/-- `Option` fallback: `optOr x y` is `x` when present, else `y`. -/
def optOr {α : Type} (x y : Option α) : Option α :=
  match x with
  | some v => some v
  | none => y

/-- `{**init, **kvs}` / `init.update(kvs)`: fold `d[k] = v` over `kvs`. -/
def dictInsertAll {β : Type} (init kvs : List (String × β)) :
    List (String × β) :=
  kvs.foldl (fun acc kv => updateAssoc acc kv.1 kv.2) init

/-- Python truthiness of `s.source_paper` (`if s.source_paper:`): `None`
and the empty string are falsy. -/
def truthyPaper (s : GeneratedSkill) : Option String :=
  match s.source_paper with
  | none => none
  | some p => if p = "" then none else some p

/-- Python set construction, order-insensitively: keep first occurrences. -/
def dedupStr (l : List String) : List String :=
  l.foldl (fun acc x => if acc.contains x then acc else acc ++ [x]) []

/-- `sorted({p for p in papers})` of `merge_skills`: the distinct truthy
source papers of the two inputs, sorted. -/
def mergedPapers (a b : GeneratedSkill) : List String :=
  sortNames (dedupStr ([a, b].filterMap truthyPaper))

/-- `combined_metadata` of `merge_skills` (lines 299-311):
`{**a.metadata, **b.metadata, "merged-from": "<a>, <b>"}` plus, when at
least one input has a truthy `source_paper`, a `source-papers` entry with
the sorted distinct papers joined by `"; "`. -/
def combinedMetadata (a b : GeneratedSkill) : List (String × String) :=
  let m := dictInsertAll [] a.metadata
  let m := dictInsertAll m b.metadata
  let m := updateAssoc m "merged-from" (a.name ++ ", " ++ b.name)
  let papers := mergedPapers a b
  if papers.isEmpty then m
  else updateAssoc m "source-papers" (String.intercalate "; " papers)

/-- `merge_skills` from `merger.py` (lines 275-320), parameterised by the
skill list parsed from the LLM response (`parse_skills_from_response`):
no parsed skill means soft failure (`None`); otherwise the first parsed
skill is returned with `merged.metadata.update(combined_metadata)`. -/
def merge_skills (skill_a skill_b : GeneratedSkill)
    (parsedSkills : List GeneratedSkill) : Option GeneratedSkill :=
  let combined := combinedMetadata skill_a skill_b
  match parsedSkills with
  | [] => none
  | merged :: _ =>
    some ⟨merged.name, merged.description, merged.body,
      dictInsertAll merged.metadata combined, merged.source_paper⟩

/-- Claim C4 exactly as stated: union with B-wins for every key of A's
and B's metadata, `merged-from` set to the two names, and a
`source-papers` entry present exactly when some input has a truthy
`source_paper`. -/
def C4claimStated (a b m : GeneratedSkill) : Prop :=
  (∀ k ∈ a.metadata.map Prod.fst ++ b.metadata.map Prod.fst,
      lookupAssoc m.metadata k =
      if containsKey b.metadata k then lookupAssoc b.metadata k
      else lookupAssoc a.metadata k) ∧
  lookupAssoc m.metadata "merged-from" = some (a.name ++ ", " ++ b.name) ∧
  (if (mergedPapers a b).isEmpty then
      lookupAssoc m.metadata "source-papers" = none
    else
      lookupAssoc m.metadata "source-papers" =
        some (String.intercalate "; " (mergedPapers a b)))

def aC4 : GeneratedSkill := ⟨"A", "da", "ba", [("merged-from", "old")], none⟩

def bC4 : GeneratedSkill := ⟨"B", "db", "bb", [], none⟩

def m0C4 : GeneratedSkill := ⟨"m", "dm", "bm", [("source-papers", "Z")], none⟩

def mC4 : GeneratedSkill :=
  ⟨"m", "dm", "bm", [("source-papers", "Z"), ("merged-from", "A, B")], none⟩

def aC4w : GeneratedSkill := ⟨"A", "", "", [("x", "1")], some "P1"⟩

def bC4w : GeneratedSkill := ⟨"B", "", "", [("y", "2")], some "P2"⟩

def m0C4w : GeneratedSkill := ⟨"m", "", "", [], none⟩

def mC4w : GeneratedSkill :=
  ⟨"m", "", "",
    [("x", "1"), ("y", "2"), ("merged-from", "A, B"),
      ("source-papers", "P1; P2")], none⟩

/-- One step of the sequential pairwise fold in the CLI auto-merge
executor (`cli.py` lines 416-422): `merged = do_merge(result, other)`;
on success the accumulator becomes the merged skill and every name of the
group is added to `merged_names`; on soft failure (`None`) the
accumulator is left unchanged.  `doMerge` abstracts the
`merge_skills(..., llm)` round trip. -/
def mergeFoldStep
    (doMerge : GeneratedSkill → GeneratedSkill → Option GeneratedSkill)
    (group : List String) (st : GeneratedSkill × List String)
    (other : GeneratedSkill) : GeneratedSkill × List String :=
  match doMerge st.1 other with
  | some merged =>
    (merged,
      group.foldl (fun acc n => if acc.contains n then acc else acc ++ [n])
        st.2)
  | none => st

/-- Disk-visible effects of the CLI auto-merge executor: skills passed to
`write_skills`, directories removed with `shutil.rmtree`, the surviving
directory set, and the accumulated `merged_names`. -/
structure ExecState where
  written : List GeneratedSkill
  removedDirs : List String
  dirs : List String
  merged_names : List String
deriving DecidableEq

/-- One iteration of the group loop of the CLI `merge` command (`cli.py`
lines 409-435): resolve the group's members, skip groups with fewer than
two resolvable members, fold pairwise merges starting from the first
member, then — since the source's `if result:` guard is always true
(`result` starts as the first member, never `None`) — write the
accumulator and remove every other member's existing directory. -/
def execGroup
    (doMerge : GeneratedSkill → GeneratedSkill → Option GeneratedSkill)
    (skills_by_name : List (String × GeneratedSkill))
    (st : ExecState) (group : List String) : ExecState :=
  let group_skills := group.filterMap (fun n => lookupAssoc skills_by_name n)
  match group_skills with
  | [] => st
  | [_] => st
  | g0 :: g1 :: grest =>
    let fr := (g1 :: grest).foldl (mergeFoldStep doMerge group)
      (g0, st.merged_names)
    let result := fr.1
    let dirs1 := if st.dirs.contains result.name then st.dirs
      else st.dirs ++ [result.name]
    let rd := group.foldl
      (fun acc n =>
        if n != result.name && acc.2.contains n then
          (acc.1 ++ [n], acc.2.erase n)
        else acc)
      (([] : List String), dirs1)
    ⟨st.written ++ [result], st.removedDirs ++ rd.1, rd.2, fr.2⟩

/-- The auto-merge section of the CLI `merge` command (`cli.py` lines
401-441): build `skills_by_name`, then run every merge group through
`execGroup`.  `dirs0` is the set of skill directories present on disk. -/
def autoMergeGroups
    (doMerge : GeneratedSkill → GeneratedSkill → Option GeneratedSkill)
    (skills : List GeneratedSkill) (groups : List (List String))
    (dirs0 : List String) : ExecState :=
  let skills_by_name := skills.foldl (fun m s => updateAssoc m s.name s) []
  groups.foldl (execGroup doMerge skills_by_name) ⟨[], [], dirs0, []⟩

def skillAC2 : GeneratedSkill := ⟨"a", "da", "ba", [], none⟩

def skillBC2 : GeneratedSkill := ⟨"b", "db", "bb", [], none⟩

/-- JSON values as produced by `json.loads` (numbers as rationals). -/
inductive Json where
  | null
  | bool (b : Bool)
  | num (q : ℚ)
  | str (s : String)
  | arr (elems : List Json)
  | obj (fields : List (String × Json))

/-- The Python exceptions reachable from `_analyze_pairs_llm`'s parsing
code (`JSONDecodeError` is caught there, so it never escapes and is
modelled as `loads` returning `none`). -/
inductive PyErr where
  | indexError
  | attributeError
  | typeError
deriving DecidableEq

/-- Python `str.strip()` on the underlying characters (whitespace from
both ends; modelled with `Char.isWhitespace`). -/
def stripChars (l : List Char) : List Char :=
  ((l.dropWhile Char.isWhitespace).reverse.dropWhile Char.isWhitespace).reverse

/-- `content.split("\n", 1)[1]`: everything after the first newline, or
the `IndexError` case (`none`) when the string has no newline at all. -/
def afterFirstNewline : List Char → Option (List Char)
  | [] => none
  | c :: rest => if c = '\n' then some rest else afterFirstNewline rest

def fenceChars : List Char := "```".data

/-- The code-fence stripping of `_analyze_pairs_llm` (lines 163-168):
strip, drop a leading fence line (raising `IndexError` when the fenced
content has no newline — the `except` clause only catches
`JSONDecodeError`), drop a trailing fence, strip again. -/
def stripCodeFence (content : String) : Except PyErr String :=
  let c := stripChars content.data
  match (if fenceChars.isPrefixOf c then afterFirstNewline c else some c) with
  | none => Except.error PyErr.indexError
  | some c1 =>
    let c2 := if fenceChars.isSuffixOf c1 then c1.take (c1.length - 3) else c1
    Except.ok (String.mk (stripChars c2))

/-- `pair_data.get(k, default)` on a JSON object. -/
def jsonGetD (fields : List (String × Json)) (k : String) (d : Json) : Json :=
  (lookupAssoc fields k).getD d

/-- The `OverlapPair` record as Python actually builds it: every field is
whatever JSON value `pair_data.get` returned (Python never checks the
types), with the source's defaults for missing keys. -/
structure RawPair where
  skill_a : Json
  skill_b : Json
  overlap_score : Json
  should_merge : Json
  reason : Json
  suggested_name : Json

/-- One record of the judgment payload (lines 175-185): defaults are
`""`, `""`, `0`, `False`, `""` and `None`. -/
def mkRawPair (fields : List (String × Json)) : RawPair :=
  ⟨jsonGetD fields "skill_a" (Json.str ""),
   jsonGetD fields "skill_b" (Json.str ""),
   jsonGetD fields "overlap_score" (Json.num 0),
   jsonGetD fields "should_merge" (Json.bool false),
   jsonGetD fields "reason" (Json.str ""),
   jsonGetD fields "suggested_merged_name" Json.null⟩

/-- `pair_data.get(...)` requires a dict: any other element of the pairs
list raises `AttributeError`. -/
def extractRecord : Json → Except PyErr RawPair
  | Json.obj fields => Except.ok (mkRawPair fields)
  | _ => Except.error PyErr.attributeError

/-- `for pair_data in data.get("pairs", [])`: lists iterate their
elements; empty strings and empty dicts iterate nothing; non-empty
strings iterate characters and non-empty dicts iterate keys, so the loop
body's `.get` raises `AttributeError` on the first element; everything
else is not iterable (`TypeError`). -/
def iterRecords : Json → Except PyErr (List Json)
  | Json.arr rs => Except.ok rs
  | Json.str s =>
    if s.data.isEmpty then Except.ok [] else Except.error PyErr.attributeError
  | Json.obj fs =>
    if fs.isEmpty then Except.ok [] else Except.error PyErr.attributeError
  | _ => Except.error PyErr.typeError

/-- The response-parsing half of `_analyze_pairs_llm` (lines 160-187),
parameterised by `loads` — the outcome of `json.loads`, where `none`
models `JSONDecodeError` (the only exception the source catches).  The
result is the `report.pairs` list, or the uncaught Python exception. -/
def _analyze_pairs_llm_parse (loads : String → Option Json)
    (content : String) : Except PyErr (List RawPair) :=
  match stripCodeFence content with
  | Except.error e => Except.error e
  | Except.ok c =>
    match loads c with
    | none => Except.ok []
    | some data =>
      match data with
      | Json.obj fields =>
        match iterRecords (jsonGetD fields "pairs" (Json.arr [])) with
        | Except.error e => Except.error e
        | Except.ok rs => rs.mapM extractRecord
      | _ => Except.error PyErr.attributeError

/-- Total reading of a pairs-list record, defined on objects. -/
def rawOfRecord : Json → RawPair
  | Json.obj fs => mkRawPair fs
  | _ => mkRawPair []

def loadsC3w : String → Option Json :=
  fun _ => some (Json.obj
    [("pairs", Json.arr [Json.obj [("skill_a", Json.str "writing-skill")]])])

/-- `MergeReport` from `merger.py`: the judged pairs plus the derived
merge groups. -/
structure MergeReport where
  pairs : List OverlapPair
  merge_groups : List (List String)
deriving DecidableEq

/-- Completed provider round trips observable from the merge engine: one
batched embedding request, one batched pairwise-judgment chat request
(recorded by the names of the skills it covers), and one pairwise merge
chat request. -/
inductive PEvent where
  | embedCall (texts : List String)
  | judgeCall (names : List String)
  | mergeCall (a b : String)
deriving DecidableEq

/-- The text embedded per skill in `_analyze_pairs_embeddings`
(line 201): `f"{name}: {description}\n{body[:300]}"`. -/
def skillText (s : GeneratedSkill) : String :=
  s.name ++ ": " ++ s.description ++ "\n" ++ ⟨s.body.data.take 300⟩

/-- `itertools.combinations(range(n), 2)`: ordered index pairs `i < j`
in lexicographic order. -/
def pairIdx (n : Nat) : List (Nat × Nat) :=
  ((List.range n).map (fun i =>
    (List.range n).filterMap (fun j =>
      if i < j then some (i, j) else none))).flatten

/-- `_analyze_pairs_llm` as the rest of the engine sees it: one judgment
chat call over the given skills, whose parsed pair list is the oracle
`judge` (its parsing internals are `_analyze_pairs_llm_parse` above). -/
def analyzePairsLLMTraced
    (judge : List GeneratedSkill → List OverlapPair)
    (skills : List GeneratedSkill) : List OverlapPair × List PEvent :=
  (judge skills, [PEvent.judgeCall (skills.map (fun s => s.name))])

/-- The candidate pairs retained by the embedding pre-filter
(lines 206-210): index pairs whose cosine similarity reaches
`threshold * 0.7`, with the similarity recorded. -/
def candidatePairs (sqrt : ℚ → ℚ) (vs : List (List ℚ)) (n : Nat)
    (threshold : ℚ) : List (Nat × Nat × ℚ) :=
  (pairIdx n).filterMap (fun ij =>
    let sim := _cosine_similarity sqrt (vs.getD ij.1 []) (vs.getD ij.2 [])
    if threshold * (7 / 10) ≤ sim then some (ij.1, ij.2, sim) else none)

/-- `_analyze_pairs_embeddings` from `merger.py` (lines 190-226): one
embedding request for the whole batch, cosine pre-filter at
`threshold * 0.7`, early exit on no candidates, otherwise the all-pairs
LLM judgment restricted to the skills whose index appears in some
retained pair (`sorted(candidate_skills)`). -/
def _analyze_pairs_embeddings_traced
    (judge : List GeneratedSkill → List OverlapPair) (sqrt : ℚ → ℚ)
    (vs : List (List ℚ)) (threshold : ℚ)
    (skills : List GeneratedSkill) : List OverlapPair × List PEvent :=
  let texts := skills.map skillText
  let cands := candidatePairs sqrt vs skills.length threshold
  if cands.isEmpty then ([], [PEvent.embedCall texts])
  else
    let filtered := ((List.range skills.length).filter
      (fun i => cands.any (fun cd => cd.1 = i || cd.2.1 = i))).filterMap
      (fun i => skills.get? i)
    let res := analyzePairsLLMTraced judge filtered
    (res.1, PEvent.embedCall texts :: res.2)

/-- `detect_overlaps` from `merger.py` (lines 92-124): empty report below
two skills; all-pairs LLM judgment up to ten skills; otherwise the
embedding pre-filter path, falling back to the all-pairs judgment when
the provider signals embeddings unsupported (`emb = none` models the
`NotImplementedError`); finally `merge_groups` is derived from the
pairs. -/
def detect_overlaps (judge : List GeneratedSkill → List OverlapPair)
    (sqrt : ℚ → ℚ) (emb : Option (List (List ℚ))) (threshold : ℚ)
    (skills : List GeneratedSkill) : MergeReport × List PEvent :=
  if skills.length < 2 then (⟨[], []⟩, [])
  else
    let pe :=
      if skills.length ≤ 10 then analyzePairsLLMTraced judge skills
      else
        match emb with
        | some vs =>
          _analyze_pairs_embeddings_traced judge sqrt vs threshold skills
        | none => analyzePairsLLMTraced judge skills
    (⟨pe.1, _build_merge_groups pe.1⟩, pe.2)

def skillsC7 : List GeneratedSkill :=
  ["s0", "s1", "s2", "s3", "s4", "s5", "s6", "s7", "s8", "s9", "s10"].map
    (fun n => ⟨n, "", "", [], none⟩)

def judgeC7 : List GeneratedSkill → List OverlapPair := fun _ => []

def vsC7 : List (List ℚ) := List.replicate 11 [0]

/-- The body of the pair loop of `merge_into_existing` (lines 347-367):
skip non-merge pairs, act only on cross-set pairs (one existing name, one
new name), resolve the two skills and merge them as a pair; a successful
merge appends the result and marks the new name consumed.  The state is
`((merged_results, merged_new_names), events)`. -/
def crossMergeStep
    (doMerge : GeneratedSkill → GeneratedSkill → Option GeneratedSkill)
    (existing_skills new_skills : List GeneratedSkill)
    (existing_names new_names : List String)
    (st : (List GeneratedSkill × List String) × List PEvent)
    (pair : OverlapPair) : (List GeneratedSkill × List String) × List PEvent :=
  if !pair.should_merge then st
  else
    let a_is_existing := existing_names.contains pair.skill_a
    let b_is_existing := existing_names.contains pair.skill_b
    let a_is_new := new_names.contains pair.skill_a
    let b_is_new := new_names.contains pair.skill_b
    if (a_is_existing && b_is_new) || (a_is_new && b_is_existing) then
      let existing_name := if a_is_existing then pair.skill_a else pair.skill_b
      let new_name := if a_is_existing then pair.skill_b else pair.skill_a
      match existing_skills.find? (fun s => s.name = existing_name),
          new_skills.find? (fun s => s.name = new_name) with
      | some existing_skill, some new_skill =>
        let ev := PEvent.mergeCall existing_skill.name new_skill.name
        match doMerge existing_skill new_skill with
        | some merged =>
          ((st.1.1 ++ [merged], st.1.2 ++ [new_name]), st.2 ++ [ev])
        | none => (st.1, st.2 ++ [ev])
      | _, _ => st
    else st

/-- `merge_into_existing` from `merger.py` (lines 323-372): with no
existing skills, return immediately (no provider call at all); otherwise
detect overlaps over existing ++ new, act on every cross-set
merge-recommended pair, and pass through the unconsumed new skills as
novel.  `doMerge` abstracts the `merge_skills` round trip, which is
counted as one `mergeCall` event per attempted pair. -/
def merge_into_existing
    (judge : List GeneratedSkill → List OverlapPair) (sqrt : ℚ → ℚ)
    (emb : Option (List (List ℚ)))
    (doMerge : GeneratedSkill → GeneratedSkill → Option GeneratedSkill)
    (threshold : ℚ)
    (new_skills existing_skills : List GeneratedSkill) :
    (List GeneratedSkill × List GeneratedSkill) × List PEvent :=
  if existing_skills.isEmpty then (([], new_skills), [])
  else
    let all_skills := existing_skills ++ new_skills
    let rep := detect_overlaps judge sqrt emb threshold all_skills
    let existing_names := existing_skills.map (fun s => s.name)
    let new_names := new_skills.map (fun s => s.name)
    let res := rep.1.pairs.foldl
      (crossMergeStep doMerge existing_skills new_skills existing_names
        new_names) (([], []), [])
    let novel_skills := new_skills.filter
      (fun s => !res.1.2.contains s.name)
    ((res.1.1, novel_skills), rep.2 ++ res.2)

theorem charListLe_total (as bs : List Char) :
    charListLe as bs = true ∨ charListLe bs as = true := by
  induction as generalizing bs with
  | nil => left; rfl
  | cons a as ih =>
    cases bs with
    | nil => right; rfl
    | cons b bs =>
      by_cases hab : a = b
      · subst hab
        simpa [charListLe] using ih bs
      · rcases lt_or_gt_of_ne hab with h | h
        · left; simp [charListLe, hab, h]
        · right; simp [charListLe, Ne.symm hab, h]

theorem charListLe_trans (as bs cs : List Char)
    (h1 : charListLe as bs = true) (h2 : charListLe bs cs = true) :
    charListLe as cs = true := by
  induction as generalizing bs cs with
  | nil => rfl
  | cons a as ih =>
    cases bs with
    | nil => simp [charListLe] at h1
    | cons b bs =>
      cases cs with
      | nil => simp [charListLe] at h2
      | cons c cs =>
        by_cases hab : a = b <;> by_cases hbc : b = c
        · subst hab; subst hbc
          simp [charListLe] at h1 h2 ⊢
          exact ih bs cs h1 h2
        · subst hab
          simp [charListLe, hbc] at h2 ⊢
          exact h2
        · subst hbc
          simp [charListLe, hab] at h1 ⊢
          exact h1
        · simp [charListLe, hab, hbc] at h1 h2
          have hac : a < c := lt_trans h1 h2
          simp [charListLe, ne_of_lt hac, hac]

theorem charListLe_antisymm (as bs : List Char)
    (h1 : charListLe as bs = true) (h2 : charListLe bs as = true) : as = bs := by
  induction as generalizing bs with
  | nil =>
    cases bs with
    | nil => rfl
    | cons b bs => simp [charListLe] at h2
  | cons a as ih =>
    cases bs with
    | nil => simp [charListLe] at h1
    | cons b bs =>
      by_cases hab : a = b
      · subst hab
        simp [charListLe] at h1 h2
        exact congrArg (List.cons a) (ih bs h1 h2)
      · simp [charListLe, hab, Ne.symm hab] at h1 h2
        exact absurd h2 (not_lt_of_gt h1)

instance : IsTotal String (fun x y => strLe x y = true) :=
  ⟨fun a b => charListLe_total a.data b.data⟩

instance : IsTrans String (fun x y => strLe x y = true) :=
  ⟨fun a b c => charListLe_trans a.data b.data c.data⟩

instance : IsAntisymm String (fun x y => strLe x y = true) :=
  ⟨fun a b h1 h2 => by
    cases a; cases b
    exact congrArg String.mk (charListLe_antisymm _ _ h1 h2)⟩

theorem sortNames_congr {l1 l2 : List String} (h : l1.Perm l2) :
    sortNames l1 = sortNames l2 :=
  List.eq_of_perm_of_sorted
    (((List.perm_insertionSort _ l1).trans h).trans
      (List.perm_insertionSort _ l2).symm)
    (List.sorted_insertionSort _ l1) (List.sorted_insertionSort _ l2)

/-- Evaluation of the whole group builder on two mergeable edges
`(a,b), (b,c)` over distinct names: one group, sorted. -/
theorem buildGroups_two_edges (a b c : String) (p1 p2 : OverlapPair)
    (hab : a ≠ b) (hac : a ≠ c) (hbc : b ≠ c)
    (h1 : edgeOf p1 = (a, b)) (h2 : edgeOf p2 = (b, c)) :
    buildGroupsOfMerge [p1, p2] = [sortNames [a, b, c]] := by
  have h1a : p1.skill_a = a := congrArg Prod.fst h1
  have h1b : p1.skill_b = b := congrArg Prod.snd h1
  have h2a : p2.skill_a = b := congrArg Prod.fst h2
  have h2b : p2.skill_b = c := congrArg Prod.snd h2
  have u1 : unionUF [] a b = [(a, b), (b, b)] := by
    simp [unionUF, findUF, findLoop, containsKey, lookupAssoc, updateAssoc,
      parentGet, hab, Ne.symm hab]
  have u2 : unionUF [(a, b), (b, b)] b c = [(a, b), (b, c), (c, c)] := by
    simp [unionUF, findUF, findLoop, containsKey, lookupAssoc, updateAssoc,
      parentGet, hab, hac, hbc, Ne.symm hab, Ne.symm hac, Ne.symm hbc]
  have hc : collectGroups [(a, b), (b, c), (c, c)] = [(c, [a, b, c])] := by
    simp [collectGroups, findUF, findLoop, containsKey, lookupAssoc,
      updateAssoc, parentGet, addToGroup, hab, hac, hbc,
      Ne.symm hab, Ne.symm hac, Ne.symm hbc]
  have hfold : List.foldl (fun par p => unionUF par p.skill_a p.skill_b)
      [] [p1, p2] = [(a, b), (b, c), (c, c)] := by
    simp only [List.foldl_cons, List.foldl_nil, h1a, h1b, h2a, h2b]
    rw [u1, u2]
  unfold buildGroupsOfMerge
  rw [hfold]
  simp only [List.isEmpty_cons, Bool.false_eq_true, if_false, hc]
  rfl

/-- As `buildGroups_two_edges`, with the two mergeable pairs arriving in
the order `(b,c), (a,b)`. -/
theorem buildGroups_two_edges_swapped (a b c : String) (p1 p2 : OverlapPair)
    (hab : a ≠ b) (hac : a ≠ c) (hbc : b ≠ c)
    (h1 : edgeOf p1 = (b, c)) (h2 : edgeOf p2 = (a, b)) :
    buildGroupsOfMerge [p1, p2] = [sortNames [b, c, a]] := by
  have h1a : p1.skill_a = b := congrArg Prod.fst h1
  have h1b : p1.skill_b = c := congrArg Prod.snd h1
  have h2a : p2.skill_a = a := congrArg Prod.fst h2
  have h2b : p2.skill_b = b := congrArg Prod.snd h2
  have u1 : unionUF [] b c = [(b, c), (c, c)] := by
    simp [unionUF, findUF, findLoop, containsKey, lookupAssoc, updateAssoc,
      parentGet, hbc, Ne.symm hbc]
  have u2 : unionUF [(b, c), (c, c)] a b = [(b, c), (c, c), (a, c)] := by
    simp [unionUF, findUF, findLoop, containsKey, lookupAssoc, updateAssoc,
      parentGet, hab, hac, hbc, Ne.symm hab, Ne.symm hac, Ne.symm hbc]
  have hc : collectGroups [(b, c), (c, c), (a, c)] = [(c, [b, c, a])] := by
    simp [collectGroups, findUF, findLoop, containsKey, lookupAssoc,
      updateAssoc, parentGet, addToGroup, hab, hac, hbc,
      Ne.symm hab, Ne.symm hac, Ne.symm hbc]
  have hfold : List.foldl (fun par p => unionUF par p.skill_a p.skill_b)
      [] [p1, p2] = [(b, c), (c, c), (a, c)] := by
    simp only [List.foldl_cons, List.foldl_nil, h1a, h1b, h2a, h2b]
    rw [u1, u2]
  unfold buildGroupsOfMerge
  rw [hfold]
  simp only [List.isEmpty_cons, Bool.false_eq_true, if_false, hc]
  rfl

/-- C1.  Transitivity of group building: when the `should_merge=true`
pairs of the input are exactly `(A,B)` and `(B,C)` over three distinct
names (in either order — in particular no mergeable `(A,C)` pair exists),
`_build_merge_groups` returns the single group holding the sorted three
names: groups are the connected components of the mergeable-pair graph. -/
theorem C1_transitivity_of_group_building
    (a b c : String) (ps : List OverlapPair) (p1 p2 : OverlapPair)
    (hab : a ≠ b) (hac : a ≠ c) (hbc : b ≠ c)
    (hf : ps.filter (fun p => p.should_merge) = [p1, p2])
    (he : (edgeOf p1 = (a, b) ∧ edgeOf p2 = (b, c)) ∨
          (edgeOf p1 = (b, c) ∧ edgeOf p2 = (a, b))) :
    _build_merge_groups ps = [sortNames [a, b, c]] := by
  unfold _build_merge_groups
  rw [hf]
  rcases he with ⟨e1, e2⟩ | ⟨e1, e2⟩
  · exact buildGroups_two_edges a b c p1 p2 hab hac hbc e1 e2
  · rw [buildGroups_two_edges_swapped a b c p1 p2 hab hac hbc e1 e2]
    have hperm : ([b, c, a] : List String).Perm [a, b, c] :=
      List.perm_append_singleton a [b, c]
    rw [sortNames_congr hperm]

theorem C1_transitivity_of_group_building_witness :
    (psC1.filter (fun p => p.should_merge) = [pabC1, pbcC1]) ∧
    _build_merge_groups psC1 = [["a", "b", "c"]] := by
  refine ⟨rfl, ?_⟩
  have h := C1_transitivity_of_group_building "a" "b" "c" psC1 pabC1 pbcC1
    (by decide) (by decide) (by decide) rfl (Or.inl ⟨rfl, rfl⟩)
  rw [h]
  rfl

theorem filter_map_edge (ps qs : List OverlapPair)
    (h : ps.map pairKey = qs.map pairKey) :
    (ps.filter (fun p => p.should_merge)).map edgeOf =
    (qs.filter (fun p => p.should_merge)).map edgeOf := by
  induction ps generalizing qs with
  | nil =>
    cases qs with
    | nil => rfl
    | cons q qs => simp at h
  | cons p ps ih =>
    cases qs with
    | nil => simp at h
    | cons q qs =>
      simp only [List.map_cons, List.cons.injEq] at h
      obtain ⟨hk, ht⟩ := h
      have ha : p.skill_a = q.skill_a := congrArg (fun t => t.1) hk
      have hb : p.skill_b = q.skill_b := congrArg (fun t => t.2.1) hk
      have hm : p.should_merge = q.should_merge := congrArg (fun t => t.2.2) hk
      by_cases hsm : p.should_merge = true
      · have hsmq : q.should_merge = true := by rw [← hm]; exact hsm
        simp only [List.filter_cons, hsm, hsmq, if_true, List.map_cons]
        exact List.cons_eq_cons.mpr ⟨by simp [edgeOf, ha, hb], ih qs ht⟩
      · have hsmq : ¬ q.should_merge = true := by rw [← hm]; exact hsm
        simp only [List.filter_cons, hsm, hsmq, if_false]
        exact ih qs ht

theorem foldl_union_edges (l : List OverlapPair)
    (init : List (String × String)) :
    l.foldl (fun par p => unionUF par p.skill_a p.skill_b) init =
    (l.map edgeOf).foldl (fun par e => unionUF par e.1 e.2) init := by
  induction l generalizing init with
  | nil => rfl
  | cons p l ih =>
    simp only [List.foldl_cons, List.map_cons]
    exact ih _

theorem buildGroupsOfMerge_ext (l1 l2 : List OverlapPair)
    (h : l1.map edgeOf = l2.map edgeOf) :
    buildGroupsOfMerge l1 = buildGroupsOfMerge l2 := by
  have hemp : l1.isEmpty = l2.isEmpty := by
    have hlen := congrArg List.length h
    cases l1 <;> cases l2 <;> simp_all
  unfold buildGroupsOfMerge
  rw [hemp]
  by_cases he : l2.isEmpty = true
  · simp [he]
  · simp only [he, if_false]
    rw [foldl_union_edges l1, foldl_union_edges l2, h]

/-- C6.  Threshold independence of grouping: `_build_merge_groups` depends
only on each pair's endpoint names and `should_merge` verdict (never on
`overlap_score`, `reason` or `suggested_name`), and a pair with
`should_merge=false` — whatever its score — contributes nothing: deleting
it anywhere in the list leaves the groups unchanged. -/
theorem C6_threshold_independence :
    (∀ ps qs : List OverlapPair, ps.map pairKey = qs.map pairKey →
        _build_merge_groups ps = _build_merge_groups qs) ∧
    (∀ (l1 l2 : List OverlapPair) (p : OverlapPair), p.should_merge = false →
        _build_merge_groups (l1 ++ p :: l2) = _build_merge_groups (l1 ++ l2)) := by
  constructor
  · intro ps qs h
    unfold _build_merge_groups
    exact buildGroupsOfMerge_ext _ _ (filter_map_edge ps qs h)
  · intro l1 l2 p hp
    unfold _build_merge_groups
    have hfil : (l1 ++ p :: l2).filter (fun p => p.should_merge) =
        (l1 ++ l2).filter (fun p => p.should_merge) := by
      simp [List.filter_append, List.filter_cons, hp]
    rw [hfil]

theorem C6_threshold_independence_witness :
    ((psC6a.map pairKey = psC6b.map pairKey) ∧
      _build_merge_groups psC6a = _build_merge_groups psC6b) ∧
    (pHiC6.should_merge = false ∧
      _build_merge_groups [pHiC6] = _build_merge_groups []) :=
  ⟨⟨rfl, C6_threshold_independence.1 psC6a psC6b rfl⟩,
   ⟨rfl, C6_threshold_independence.2 [] [] pHiC6 rfl⟩⟩

theorem sumSquares_zero (a : List ℚ) (h : ∀ x ∈ a, x = 0) :
    sumSquares a = 0 := by
  have key : ∀ (l : List ℚ) (acc : ℚ), (∀ x ∈ l, x = 0) →
      l.foldl (fun acc x => acc + x * x) acc = acc := by
    intro l
    induction l with
    | nil => intro acc _; rfl
    | cons x l ih =>
      intro acc hl
      have hx : x = 0 := hl x (List.mem_cons_self x l)
      have ht : ∀ y ∈ l, y = 0 := fun y hy => hl y (List.mem_cons_of_mem x hy)
      simp only [List.foldl_cons, hx, mul_zero, add_zero]
      exact ih acc ht
  exact key a 0 h

/-- C9.  Zero-vector similarity: whenever either input vector is all
zeros (and the lengths agree, though the guard does not need that),
`_cosine_similarity` returns exactly 0 via the explicit zero-norm guard,
so the division is never reached. -/
theorem C9_zero_vector_similarity (sqrt : ℚ → ℚ) (a b : List ℚ)
    (hsqrt : sqrt 0 = 0) (_hlen : a.length = b.length)
    (hz : (∀ x ∈ a, x = 0) ∨ (∀ x ∈ b, x = 0)) :
    _cosine_similarity sqrt a b = 0 := by
  unfold _cosine_similarity
  rcases hz with h | h
  · rw [sumSquares_zero a h, hsqrt]
    simp
  · rw [sumSquares_zero b h, hsqrt]
    simp

theorem C9_zero_vector_similarity_witness :
    ((fun q : ℚ => q) 0 = 0) ∧
    ([(0 : ℚ), 0].length = [(3 : ℚ), 4].length) ∧
    _cosine_similarity (fun q => q) [0, 0] [3, 4] = 0 :=
  ⟨rfl, rfl,
    C9_zero_vector_similarity (fun q => q) [0, 0] [3, 4] rfl rfl
      (Or.inl (by decide))⟩

/-- C8 evaluation: the source has no length guard at all — `zip`
truncates the dot product to the shorter vector while each norm uses its
full vector, and a value is returned (no `ValueError`): with the identity
standing in for `sqrt`, `[1]` against `[1,1]` yields `1/(1*2) = 1/2`. -/
theorem C8_mismatched_lengths_truncate :
    _cosine_similarity (fun q => q) [1] [1, 1] = 1/2 := by
  unfold _cosine_similarity dotProduct sumSquares
  norm_num

theorem lookup_update {β : Type} (m : List (String × β)) (k : String) (v : β)
    (k2 : String) :
    lookupAssoc (updateAssoc m k v) k2 =
    if k = k2 then some v else lookupAssoc m k2 := by
  induction m with
  | nil => simp [updateAssoc, lookupAssoc]
  | cons kv rest ih =>
    obtain ⟨k1, v1⟩ := kv
    by_cases h1 : k1 = k
    · subst h1
      by_cases h2 : k1 = k2 <;> simp [updateAssoc, lookupAssoc, h2]
    · by_cases h2 : k1 = k2
      · subst h2
        have hne : ¬ k = k1 := fun hh => h1 hh.symm
        simp [updateAssoc, lookupAssoc, h1, hne]
      · simp [updateAssoc, lookupAssoc, h1, h2, ih]

theorem lookup_append {β : Type} (l1 l2 : List (String × β)) (k : String) :
    lookupAssoc (l1 ++ l2) k = optOr (lookupAssoc l1 k) (lookupAssoc l2 k) := by
  induction l1 with
  | nil => simp [lookupAssoc, optOr]
  | cons kv rest ih =>
    obtain ⟨k1, v1⟩ := kv
    by_cases h : k1 = k <;> simp [lookupAssoc, h, ih, optOr]

theorem lookup_dictInsertAll {β : Type} (kvs init : List (String × β))
    (k : String) :
    lookupAssoc (dictInsertAll init kvs) k =
    optOr (lookupAssoc kvs.reverse k) (lookupAssoc init k) := by
  induction kvs generalizing init with
  | nil => simp [dictInsertAll, lookupAssoc, optOr]
  | cons kv rest ih =>
    obtain ⟨k1, v1⟩ := kv
    show lookupAssoc (dictInsertAll (updateAssoc init k1 v1) rest) k = _
    rw [ih, List.reverse_cons, lookup_append, lookup_update]
    cases hx : lookupAssoc rest.reverse k <;>
      by_cases h : k1 = k <;> simp [optOr, lookupAssoc, h, hx]

theorem lookup_eq_none {β : Type} (kvs : List (String × β)) (k : String)
    (h : k ∉ kvs.map Prod.fst) : lookupAssoc kvs k = none := by
  induction kvs with
  | nil => rfl
  | cons kv rest ih =>
    obtain ⟨k1, v1⟩ := kv
    simp only [List.map_cons, List.mem_cons] at h
    push_neg at h
    have h1 : ¬ k1 = k := fun hh => h.1 hh.symm
    simp [lookupAssoc, h1, ih h.2]

theorem lookup_reverse_nodup {β : Type} (kvs : List (String × β)) (k : String)
    (h : (kvs.map Prod.fst).Nodup) :
    lookupAssoc kvs.reverse k = lookupAssoc kvs k := by
  induction kvs with
  | nil => rfl
  | cons kv rest ih =>
    obtain ⟨k1, v1⟩ := kv
    simp only [List.map_cons, List.nodup_cons] at h
    obtain ⟨hk1, hrest⟩ := h
    rw [List.reverse_cons, lookup_append, ih hrest]
    by_cases hx : k1 = k
    · subst hx
      rw [lookup_eq_none rest k1 hk1]
      simp [optOr, lookupAssoc]
    · cases hy : lookupAssoc rest k <;> simp [optOr, lookupAssoc, hx, hy]

theorem mem_keys_updateAssoc {β : Type} (m : List (String × β)) (k : String)
    (v : β) (x : String) :
    x ∈ (updateAssoc m k v).map Prod.fst ↔ x ∈ m.map Prod.fst ∨ x = k := by
  induction m with
  | nil => simp [updateAssoc]
  | cons kv rest ih =>
    obtain ⟨k1, v1⟩ := kv
    by_cases h : k1 = k
    · subst h
      simp [updateAssoc]
      tauto
    · simp [updateAssoc, h, ih]
      tauto

theorem nodup_keys_updateAssoc {β : Type} (m : List (String × β)) (k : String)
    (v : β) (h : (m.map Prod.fst).Nodup) :
    ((updateAssoc m k v).map Prod.fst).Nodup := by
  induction m with
  | nil => simp [updateAssoc]
  | cons kv rest ih =>
    obtain ⟨k1, v1⟩ := kv
    simp only [List.map_cons, List.nodup_cons] at h
    obtain ⟨hk1, hrest⟩ := h
    by_cases hx : k1 = k
    · subst hx
      rw [show updateAssoc ((k1, v1) :: rest) k1 v = (k1, v) :: rest from by
        simp [updateAssoc]]
      simp only [List.map_cons, List.nodup_cons]
      exact ⟨hk1, hrest⟩
    · simp only [updateAssoc, if_neg hx, List.map_cons, List.nodup_cons]
      refine ⟨?_, ih hrest⟩
      intro hmem
      rcases (mem_keys_updateAssoc rest k v k1).mp hmem with hin | heq
      · exact hk1 hin
      · exact hx heq

theorem nodup_keys_dictInsertAll {β : Type} (kvs init : List (String × β))
    (h : (init.map Prod.fst).Nodup) :
    ((dictInsertAll init kvs).map Prod.fst).Nodup := by
  induction kvs generalizing init with
  | nil => exact h
  | cons kv rest ih =>
    obtain ⟨k1, v1⟩ := kv
    show ((dictInsertAll (updateAssoc init k1 v1) rest).map Prod.fst).Nodup
    exact ih _ (nodup_keys_updateAssoc init k1 v1 h)

theorem nodup_combined (a b : GeneratedSkill) :
    ((combinedMetadata a b).map Prod.fst).Nodup := by
  unfold combinedMetadata
  have hbase : (((dictInsertAll (dictInsertAll [] a.metadata) b.metadata)).map
      Prod.fst).Nodup :=
    nodup_keys_dictInsertAll _ _ (nodup_keys_dictInsertAll _ _ (by simp))
  have hm2 := nodup_keys_updateAssoc _ "merged-from"
    (a.name ++ ", " ++ b.name) hbase
  by_cases hp : (mergedPapers a b).isEmpty = true
  · rw [if_pos hp]
    exact hm2
  · rw [if_neg hp]
    exact nodup_keys_updateAssoc _ "source-papers" _ hm2

theorem lookup_baseMeta (a b : GeneratedSkill)
    (ha : (a.metadata.map Prod.fst).Nodup)
    (hb : (b.metadata.map Prod.fst).Nodup) (k : String) :
    lookupAssoc (dictInsertAll (dictInsertAll [] a.metadata) b.metadata) k =
    optOr (lookupAssoc b.metadata k) (lookupAssoc a.metadata k) := by
  rw [lookup_dictInsertAll, lookup_dictInsertAll,
    lookup_reverse_nodup _ _ hb, lookup_reverse_nodup _ _ ha]
  cases lookupAssoc b.metadata k <;> cases lookupAssoc a.metadata k <;>
    simp [optOr, lookupAssoc]

theorem lookup_combined (a b : GeneratedSkill)
    (ha : (a.metadata.map Prod.fst).Nodup)
    (hb : (b.metadata.map Prod.fst).Nodup)
    (k : String) (hk1 : k ≠ "merged-from") (hk2 : k ≠ "source-papers") :
    lookupAssoc (combinedMetadata a b) k =
    optOr (lookupAssoc b.metadata k) (lookupAssoc a.metadata k) := by
  unfold combinedMetadata
  have hmf : ¬ "merged-from" = k := fun hh => hk1 hh.symm
  have hsp : ¬ "source-papers" = k := fun hh => hk2 hh.symm
  by_cases hp : (mergedPapers a b).isEmpty = true
  · rw [if_pos hp, lookup_update, if_neg hmf]
    exact lookup_baseMeta a b ha hb k
  · rw [if_neg hp, lookup_update, if_neg hsp, lookup_update, if_neg hmf]
    exact lookup_baseMeta a b ha hb k

theorem lookup_combined_mf (a b : GeneratedSkill) :
    lookupAssoc (combinedMetadata a b) "merged-from" =
    some (a.name ++ ", " ++ b.name) := by
  unfold combinedMetadata
  by_cases hp : (mergedPapers a b).isEmpty = true
  · rw [if_pos hp, lookup_update, if_pos rfl]
  · rw [if_neg hp, lookup_update, if_neg (by decide), lookup_update, if_pos rfl]

theorem lookup_combined_sp_pos (a b : GeneratedSkill)
    (hne : ¬ (mergedPapers a b).isEmpty = true) :
    lookupAssoc (combinedMetadata a b) "source-papers" =
    some (String.intercalate "; " (mergedPapers a b)) := by
  unfold combinedMetadata
  rw [if_neg hne, lookup_update, if_pos rfl]

theorem lookup_combined_sp_neg (a b : GeneratedSkill)
    (ha : (a.metadata.map Prod.fst).Nodup)
    (hb : (b.metadata.map Prod.fst).Nodup)
    (hemp : (mergedPapers a b).isEmpty = true) :
    lookupAssoc (combinedMetadata a b) "source-papers" =
    optOr (lookupAssoc b.metadata "source-papers")
      (lookupAssoc a.metadata "source-papers") := by
  unfold combinedMetadata
  rw [if_pos hemp, lookup_update, if_neg (by decide)]
  exact lookup_baseMeta a b ha hb _

theorem lookup_merge_result (a b m0 : GeneratedSkill)
    (rest : List GeneratedSkill) (m : GeneratedSkill)
    (hm : merge_skills a b (m0 :: rest) = some m) (k : String) :
    lookupAssoc m.metadata k =
    optOr (lookupAssoc (combinedMetadata a b) k)
      (lookupAssoc m0.metadata k) := by
  have hmm : m = ⟨m0.name, m0.description, m0.body,
      dictInsertAll m0.metadata (combinedMetadata a b), m0.source_paper⟩ := by
    have := hm
    simp only [merge_skills, Option.some.injEq] at this
    exact this.symm
  subst hmm
  show lookupAssoc (dictInsertAll m0.metadata (combinedMetadata a b)) k = _
  rw [lookup_dictInsertAll, lookup_reverse_nodup _ _ (nodup_combined a b)]

theorem dedup_fold_acc_nil (l acc : List String)
    (h : l.foldl (fun acc x => if acc.contains x then acc else acc ++ [x])
      acc = []) : acc = [] ∧ l = [] := by
  induction l generalizing acc with
  | nil => exact ⟨h, rfl⟩
  | cons x l ih =>
    have step := (ih _ h).1
    by_cases hc : acc.contains x = true
    · simp only [hc, if_true] at step
      subst step
      simp at hc
    · simp only [hc, if_false] at step
      exact absurd step (by simp)

theorem mergedPapers_empty_iff (a b : GeneratedSkill) :
    mergedPapers a b = [] ↔ (truthyPaper a = none ∧ truthyPaper b = none) := by
  constructor
  · intro h
    have hperm := List.perm_insertionSort
      (fun x y => strLe x y = true) (dedupStr ([a, b].filterMap truthyPaper))
    rw [show List.insertionSort (fun x y => strLe x y = true)
        (dedupStr ([a, b].filterMap truthyPaper)) = mergedPapers a b from rfl,
      h] at hperm
    have hded : dedupStr ([a, b].filterMap truthyPaper) = [] :=
      hperm.symm.eq_nil
    have hfm : [a, b].filterMap truthyPaper = [] :=
      (dedup_fold_acc_nil _ _ hded).2
    cases hta : truthyPaper a with
    | some p => simp [List.filterMap_cons, hta] at hfm
    | none =>
      cases htb : truthyPaper b with
      | some p => simp [List.filterMap_cons, hta, htb] at hfm
      | none => exact ⟨rfl, rfl⟩
  · intro h
    obtain ⟨h1, h2⟩ := h
    simp [mergedPapers, List.filterMap_cons, h1, h2, dedupStr, sortNames,
      List.insertionSort]

theorem optOr_assoc {α : Type} (x y z : Option α) :
    optOr (optOr x y) z = optOr x (optOr y z) := by
  cases x <;> simp [optOr]

/-- C4 (amended).  Metadata of a successful `merge_skills`: writing the
combined metadata over the parsed skill's own metadata gives, for every
ordinary key, B's value, else A's, else the parsed skill's own; the
`merged-from` entry is always `"<A.name>, <B.name>"`; when at least one
input has a truthy `source_paper` the `source-papers` entry is the sorted
distinct papers joined by `"; "`; when neither has one, no `source-papers`
entry is added, so the result carries whatever value B, A or the parsed
skill already had under that key (absent when none of them has it); and
"no truthy paper" is exactly `mergedPapers = []`. -/
theorem C4_amended_metadata_union (a b m0 : GeneratedSkill)
    (rest : List GeneratedSkill) (m : GeneratedSkill)
    (ha : (a.metadata.map Prod.fst).Nodup)
    (hb : (b.metadata.map Prod.fst).Nodup)
    (hm : merge_skills a b (m0 :: rest) = some m) :
    (∀ k : String, k ≠ "merged-from" → k ≠ "source-papers" →
        lookupAssoc m.metadata k =
        optOr (lookupAssoc b.metadata k)
          (optOr (lookupAssoc a.metadata k) (lookupAssoc m0.metadata k))) ∧
    lookupAssoc m.metadata "merged-from" = some (a.name ++ ", " ++ b.name) ∧
    (mergedPapers a b ≠ [] →
        lookupAssoc m.metadata "source-papers" =
        some (String.intercalate "; " (mergedPapers a b))) ∧
    (mergedPapers a b = [] →
        lookupAssoc m.metadata "source-papers" =
        optOr (lookupAssoc b.metadata "source-papers")
          (optOr (lookupAssoc a.metadata "source-papers")
            (lookupAssoc m0.metadata "source-papers"))) ∧
    (mergedPapers a b = [] ↔ truthyPaper a = none ∧ truthyPaper b = none) := by
  refine ⟨?_, ?_, ?_, ?_, mergedPapers_empty_iff a b⟩
  · intro k hk1 hk2
    rw [lookup_merge_result a b m0 rest m hm k,
      lookup_combined a b ha hb k hk1 hk2, optOr_assoc]
  · rw [lookup_merge_result a b m0 rest m hm _, lookup_combined_mf a b]
    rfl
  · intro hne
    have hne2 : ¬ (mergedPapers a b).isEmpty = true := by
      simpa [List.isEmpty_iff] using hne
    rw [lookup_merge_result a b m0 rest m hm _,
      lookup_combined_sp_pos a b hne2]
    rfl
  · intro hemp
    have hemp2 : (mergedPapers a b).isEmpty = true := by
      simp [List.isEmpty_iff, hemp]
    rw [lookup_merge_result a b m0 rest m hm _,
      lookup_combined_sp_neg a b ha hb hemp2, optOr_assoc]

/-- C4 counterexample: with A carrying a `merged-from` key and the parsed
merge response carrying a `source-papers` key, the literal claim fails:
the constructed `merged-from` overrides A's value (so "B wins, else A"
does not hold at that key), and a `source-papers` entry is present even
though neither input has a `source_paper`. -/
theorem C4_counterexample :
    merge_skills aC4 bC4 [m0C4] = some mC4 ∧ ¬ C4claimStated aC4 bC4 mC4 := by
  constructor
  · decide
  · intro hcl
    have h1 := hcl.1 "merged-from" (by decide)
    revert h1
    decide

theorem C4_amended_metadata_union_witness :
    (aC4w.metadata.map Prod.fst).Nodup ∧
    merge_skills aC4w bC4w [m0C4w] = some mC4w ∧
    lookupAssoc mC4w.metadata "x" = some "1" ∧
    lookupAssoc mC4w.metadata "y" = some "2" ∧
    lookupAssoc mC4w.metadata "merged-from" = some "A, B" ∧
    lookupAssoc mC4w.metadata "source-papers" = some "P1; P2" := by
  have h := C4_amended_metadata_union aC4w bC4w m0C4w [] mC4w
    (by decide) (by decide) (by decide)
  exact ⟨by decide, by decide, h.1 "x" (by decide) (by decide),
    h.1 "y" (by decide) (by decide), h.2.1, h.2.2.1 (by decide)⟩

/-- C2 evaluation at the failing input: a 2-member group whose single
merge fails soft.  Because `result` is initialised to the first member
and the `if result:` guard is therefore always true, the executor still
writes the first member back and deletes the second member's directory —
the code does not leave the group untouched as the claim requires. -/
theorem C2_failed_merge_still_replaces :
    autoMergeGroups (fun _ _ => none) [skillAC2, skillBC2] [["a", "b"]]
      ["a", "b"] =
    ⟨[skillAC2], ["b"], ["a"], []⟩ := by decide

/-- C5.  Soft-fail single-pair merge: a merge response that parses to
zero skills makes `merge_skills` return `None` (never raising), and in
the CLI group fold a failed step leaves the accumulator (and
`merged_names`) unchanged. -/
theorem C5_soft_fail_merge :
    (∀ a b : GeneratedSkill, merge_skills a b [] = none) ∧
    (∀ (doMerge : GeneratedSkill → GeneratedSkill → Option GeneratedSkill)
        (group : List String) (res other : GeneratedSkill)
        (names : List String),
        doMerge res other = none →
        mergeFoldStep doMerge group (res, names) other = (res, names)) := by
  constructor
  · intro a b
    rfl
  · intro doMerge group res other names h
    simp [mergeFoldStep, h]

theorem C5_soft_fail_merge_witness :
    ((fun (_ _ : GeneratedSkill) => (none : Option GeneratedSkill))
        skillAC2 skillBC2 = none) ∧
    merge_skills skillAC2 skillBC2 [] = none ∧
    mergeFoldStep (fun _ _ => none) ["a", "b"] (skillAC2, []) skillBC2 =
      (skillAC2, []) :=
  ⟨rfl, C5_soft_fail_merge.1 skillAC2 skillBC2,
    C5_soft_fail_merge.2 (fun _ _ => none) ["a", "b"] skillAC2 skillBC2 []
      rfl⟩

/-- C3 counterexample: four response contents on which `_analyze_pairs_llm`
raises instead of returning a report — a bare fence with no newline
(`IndexError` from `split("\n", 1)[1]`, not caught by the
`except json.JSONDecodeError` clause), a top-level JSON array
(`AttributeError` from `data.get`), a non-list `pairs` field
(`TypeError` iterating it), and a non-dict record (`AttributeError`
from `pair_data.get`). -/
theorem C3_counterexample :
    _analyze_pairs_llm_parse (fun _ => none) "```" =
      Except.error PyErr.indexError ∧
    _analyze_pairs_llm_parse (fun _ => some (Json.arr [])) "x" =
      Except.error PyErr.attributeError ∧
    _analyze_pairs_llm_parse
      (fun _ => some (Json.obj [("pairs", Json.num 5)])) "x" =
      Except.error PyErr.typeError ∧
    _analyze_pairs_llm_parse
      (fun _ => some (Json.obj [("pairs", Json.arr [Json.num 1])])) "x" =
      Except.error PyErr.attributeError :=
  ⟨rfl, rfl, rfl, rfl⟩

theorem mapM_extractRecord (rs : List Json)
    (h : ∀ r ∈ rs, ∃ fs, r = Json.obj fs) :
    rs.mapM extractRecord = Except.ok (rs.map rawOfRecord) := by
  induction rs with
  | nil => rfl
  | cons r rs ih =>
    obtain ⟨fs, hfs⟩ := h r (List.mem_cons_self r rs)
    subst hfs
    have ht : ∀ x ∈ rs, ∃ fs2, x = Json.obj fs2 :=
      fun x hx => h x (List.mem_cons_of_mem _ hx)
    rw [List.mapM_cons, ih ht]
    rfl

/-- C3 (amended).  Whenever fence-stripping succeeds (the content does
not reduce to a fence with no newline) and the parse outcome is either a
failure or a JSON object whose `pairs` field, when present, is an array
of objects, `_analyze_pairs_llm` returns a report without raising: parse
failure or a missing `pairs` field yields the empty pair list, and
inside each record a missing field defaults to `overlap_score = 0`,
`should_merge = false`, empty reason and null suggested name. -/
theorem C3_amended_parse_recovery (loads : String → Option Json)
    (content c : String) (hstrip : stripCodeFence content = Except.ok c) :
    (loads c = none →
      _analyze_pairs_llm_parse loads content = Except.ok []) ∧
    (∀ fields, loads c = some (Json.obj fields) →
      lookupAssoc fields "pairs" = none →
      _analyze_pairs_llm_parse loads content = Except.ok []) ∧
    (∀ fields rs, loads c = some (Json.obj fields) →
      lookupAssoc fields "pairs" = some (Json.arr rs) →
      (∀ r ∈ rs, ∃ fs, r = Json.obj fs) →
      _analyze_pairs_llm_parse loads content =
        Except.ok (rs.map rawOfRecord)) ∧
    (∀ fs, lookupAssoc fs "overlap_score" = none →
      (mkRawPair fs).overlap_score = Json.num 0) ∧
    (∀ fs, lookupAssoc fs "should_merge" = none →
      (mkRawPair fs).should_merge = Json.bool false) ∧
    (∀ fs, lookupAssoc fs "reason" = none →
      (mkRawPair fs).reason = Json.str "") ∧
    (∀ fs, lookupAssoc fs "suggested_merged_name" = none →
      (mkRawPair fs).suggested_name = Json.null) := by
  refine ⟨?_, ?_, ?_, ?_, ?_, ?_, ?_⟩
  · intro h
    simp [_analyze_pairs_llm_parse, hstrip, h]
  · intro fields hl hp
    simp only [_analyze_pairs_llm_parse, hstrip, hl, jsonGetD, hp,
      Option.getD_none, iterRecords]
    rfl
  · intro fields rs hl hp hr
    simp only [_analyze_pairs_llm_parse, hstrip, hl, jsonGetD, hp,
      Option.getD_some, iterRecords]
    exact mapM_extractRecord rs hr
  · intro fs h
    simp [mkRawPair, jsonGetD, h]
  · intro fs h
    simp [mkRawPair, jsonGetD, h]
  · intro fs h
    simp [mkRawPair, jsonGetD, h]
  · intro fs h
    simp [mkRawPair, jsonGetD, h]

theorem C3_amended_parse_recovery_witness :
    stripCodeFence "x" = Except.ok "x" ∧
    _analyze_pairs_llm_parse loadsC3w "x" =
      Except.ok [⟨Json.str "writing-skill", Json.str "", Json.num 0,
        Json.bool false, Json.str "", Json.null⟩] := by
  refine ⟨rfl, ?_⟩
  have h := (C3_amended_parse_recovery loadsC3w "x" "x" rfl).2.2.1
    [("pairs", Json.arr [Json.obj [("skill_a", Json.str "writing-skill")]])]
    [Json.obj [("skill_a", Json.str "writing-skill")]] rfl rfl
    (by
      intro r hr
      rw [List.mem_singleton] at hr
      exact ⟨_, hr⟩)
  exact h

theorem candidatePairs_mem (sqrt : ℚ → ℚ) (vs : List (List ℚ)) (n : Nat)
    (t : ℚ) (i j : Nat) (s : ℚ) :
    (i, j, s) ∈ candidatePairs sqrt vs n t ↔
    ((i, j) ∈ pairIdx n ∧
     s = _cosine_similarity sqrt (vs.getD i []) (vs.getD j []) ∧
     t * (7 / 10) ≤ s) := by
  unfold candidatePairs
  rw [List.mem_filterMap]
  constructor
  · rintro ⟨⟨i2, j2⟩, hij, heq⟩
    dsimp only at heq
    by_cases hcond : t * (7 / 10) ≤
        _cosine_similarity sqrt (vs.getD i2 []) (vs.getD j2 [])
    · rw [if_pos hcond] at heq
      have h4 := Option.some.inj heq
      have hi : i2 = i := congrArg Prod.fst h4
      have hrest := congrArg Prod.snd h4
      have hj : j2 = j := congrArg Prod.fst hrest
      have hs : _cosine_similarity sqrt (vs.getD i2 []) (vs.getD j2 []) = s :=
        congrArg Prod.snd hrest
      subst hi
      subst hj
      subst hs
      exact ⟨hij, rfl, hcond⟩
    · rw [if_neg hcond] at heq
      exact absurd heq (by simp)
  · rintro ⟨hij, hs, hcond⟩
    subst hs
    refine ⟨(i, j), hij, ?_⟩
    dsimp only
    rw [if_pos hcond]

/-- C7.  Embedding pre-filter dispatch for more than ten skills: with an
embedding-capable provider the trace holds exactly one embedding call
(for all the skills' texts) followed by at most one judgment call,
restricted to the skills whose index appears in some retained candidate
pair; a triple is a retained candidate exactly when it is an `i < j`
index pair whose cosine similarity reaches `threshold * 0.7`; and an
embedding-unsupported provider falls back to the all-pairs judgment of
the full set. -/
theorem C7_embedding_prefilter_dispatch
    (judge : List GeneratedSkill → List OverlapPair) (sqrt : ℚ → ℚ)
    (vs : List (List ℚ)) (threshold : ℚ)
    (skills : List GeneratedSkill) (hlen : 10 < skills.length) :
    ((detect_overlaps judge sqrt (some vs) threshold skills).2 =
      if (candidatePairs sqrt vs skills.length threshold).isEmpty then
        [PEvent.embedCall (skills.map skillText)]
      else
        [PEvent.embedCall (skills.map skillText),
         PEvent.judgeCall (((List.range skills.length).filter
            (fun i => (candidatePairs sqrt vs skills.length threshold).any
              (fun cd => cd.1 = i || cd.2.1 = i))).filterMap
            (fun i => (skills.get? i).map (fun s => s.name)))]) ∧
    (∀ i j s, (i, j, s) ∈ candidatePairs sqrt vs skills.length threshold ↔
      ((i, j) ∈ pairIdx skills.length ∧
       s = _cosine_similarity sqrt (vs.getD i []) (vs.getD j []) ∧
       threshold * (7 / 10) ≤ s)) ∧
    detect_overlaps judge sqrt none threshold skills =
      (⟨judge skills, _build_merge_groups (judge skills)⟩,
       [PEvent.judgeCall (skills.map (fun s => s.name))]) := by
  have h2 : ¬ skills.length < 2 := by omega
  have h10 : ¬ skills.length ≤ 10 := by omega
  refine ⟨?_, ?_, ?_⟩
  · simp only [detect_overlaps, h2, if_false, h10,
      _analyze_pairs_embeddings_traced, analyzePairsLLMTraced]
    by_cases hc : (candidatePairs sqrt vs skills.length threshold).isEmpty
    · simp [hc]
    · simp [hc, List.map_filterMap]
  · intro i j s
    exact candidatePairs_mem sqrt vs skills.length threshold i j s
  · simp [detect_overlaps, h2, h10, analyzePairsLLMTraced]

theorem C7_embedding_prefilter_dispatch_witness :
    10 < skillsC7.length ∧
    ((detect_overlaps judgeC7 (fun q => q) (some vsC7) 1 skillsC7).2 =
      if (candidatePairs (fun q => q) vsC7 skillsC7.length 1).isEmpty then
        [PEvent.embedCall (skillsC7.map skillText)]
      else
        [PEvent.embedCall (skillsC7.map skillText),
         PEvent.judgeCall (((List.range skillsC7.length).filter
            (fun i => (candidatePairs (fun q => q) vsC7 skillsC7.length 1).any
              (fun cd => cd.1 = i || cd.2.1 = i))).filterMap
            (fun i => (skillsC7.get? i).map (fun s => s.name)))]) ∧
    detect_overlaps judgeC7 (fun q => q) none 1 skillsC7 =
      (⟨judgeC7 skillsC7, _build_merge_groups (judgeC7 skillsC7)⟩,
       [PEvent.judgeCall (skillsC7.map (fun s => s.name))]) := by
  have h := C7_embedding_prefilter_dispatch judgeC7 (fun q => q) vsC7 1
    skillsC7 (by decide)
  exact ⟨by decide, h.1, h.2.2⟩

/-- C10.  With an empty existing-skill list, `merge_into_existing`
returns the empty merged list together with the new skills unchanged and
in input order, and its provider-event trace is empty: no overlap
detection, no embedding and no merge call is made. -/
theorem C10_empty_existing_short_circuit
    (judge : List GeneratedSkill → List OverlapPair) (sqrt : ℚ → ℚ)
    (emb : Option (List (List ℚ)))
    (doMerge : GeneratedSkill → GeneratedSkill → Option GeneratedSkill)
    (threshold : ℚ) (new_skills : List GeneratedSkill) :
    merge_into_existing judge sqrt emb doMerge threshold new_skills [] =
      (([], new_skills), []) := by
  simp [merge_into_existing]
